import Mathlib

/-!
Shallow embedding of the ml_training_manager supervisor
(src/training_manager) and proofs about its specification claims.

Conventions of the embedding:
* CSV cells are strings; an empty cell is the empty string.  In the
  pandas implementation an empty cell surfaces as NaN; wherever the
  distinction affects control flow the effect on the modelled outcome
  is noted next to the definition.
* Remote-tracker answers (wandb state, display name) and the file
  system (directory listings) are oracle parameters, since they are
  external to the program.
* The non-reentrant threading.Lock of ProcessManager is modelled by an
  explicit held flag: acquiring while already held blocks forever,
  which the embedding represents as the value none.
* Python string operations are re-implemented structurally over char
  lists (ASCII case folding, CPython whitespace set) so that all
  definitions evaluate inside the kernel.
* Decimal loss values parsed from checkpoint file names are modelled
  as exact scaled decimals compared by cross multiplication, the ideal
  reading of the float comparison in the code.
-/

/-! ### Python string primitives -/

/-- ASCII lower-casing of one character (str.lower on the ASCII range,
which covers every string the manager parses). -/
def lcChar (c : Char) : Char :=
  if c.toNat ≥ 65 ∧ c.toNat ≤ 90 then Char.ofNat (c.toNat + 32) else c

/-- str.lower. -/
def lowerS (s : String) : String := ⟨s.data.map lcChar⟩

/-- CPython str whitespace (space, tab, newline, return, vertical tab,
form feed). -/
def isPyWs (c : Char) : Bool :=
  c == ' ' || c == '\t' || c == '\n' || c == '\r' || c == '\x0b' || c == '\x0c'

/-- str.strip on a char list. -/
def trimL (cs : List Char) : List Char :=
  ((cs.dropWhile isPyWs).reverse.dropWhile isPyWs).reverse

/-- str.strip. -/
def trimS (s : String) : String := ⟨trimL s.data⟩

/-- Fuel-driven worker for str.split(sep): non-overlapping splits,
scanning left to right.  The fuel is an upper bound on the input
length plus one, so the fallback branch is unreachable. -/
def splitOnFuel (pat : List Char) : Nat → List Char → List Char → List (List Char)
  | 0, s, acc => [acc.reverse ++ s]
  | fuel + 1, s, acc =>
    match s with
    | [] => [acc.reverse]
    | c :: rest =>
      if pat.isPrefixOf (c :: rest) then
        acc.reverse :: splitOnFuel pat fuel (List.drop pat.length (c :: rest)) []
      else
        splitOnFuel pat fuel rest (c :: acc)

/-- str.split(sep) for a non-empty separator. -/
def splitOnS (s pat : String) : List String :=
  (splitOnFuel pat.data (s.data.length + 1) s.data []).map (fun l => ⟨l⟩)

/-- Substring containment, the Python in operator on strings. -/
def containsL : List Char → List Char → Bool
  | [], pat => pat.isEmpty
  | s@(_ :: rest), pat => pat.isPrefixOf s || containsL rest pat

/-- Substring containment on strings. -/
def containsS (s pat : String) : Bool := containsL s.data pat.data

/-- Worker for whitespace tokenisation (str.split with no argument):
runs of whitespace separate tokens, empty tokens are dropped. -/
def wsTokensAux : List Char → List Char → List String
  | [], cur => if cur.isEmpty then [] else [⟨cur.reverse⟩]
  | c :: rest, cur =>
    if isPyWs c then
      if cur.isEmpty then wsTokensAux rest [] else ⟨cur.reverse⟩ :: wsTokensAux rest []
    else
      wsTokensAux rest (c :: cur)

/-- str.split() with no argument. -/
def wsTokens (s : String) : List String := wsTokensAux s.data []

/-- str.startswith. -/
def startsWithS (s pat : String) : Bool := pat.data.isPrefixOf s.data

/-- str.endswith. -/
def endsWithS (s pat : String) : Bool := pat.data.isSuffixOf s.data

/-- Drop the first n characters (string slicing s[n:]). -/
def dropS (s : String) (n : Nat) : String := ⟨s.data.drop n⟩

/-- sep.join. -/
def joinL (sep : List Char) : List (List Char) → List Char
  | [] => []
  | [x] => x
  | x :: xs => x ++ sep ++ joinL sep xs

/-- sep.join on strings. -/
def joinS (sep : String) (xs : List String) : String :=
  ⟨joinL sep.data (xs.map (fun x => x.data))⟩

/-- Decimal digit list of a natural number (worker, fuel-driven). -/
def natDigitsFuel : Nat → Nat → List Char
  | 0, _ => []
  | fuel + 1, n =>
    if n < 10 then [Char.ofNat (48 + n)]
    else natDigitsFuel fuel (n / 10) ++ [Char.ofNat (48 + n % 10)]

/-- Python str of an int. -/
def pyIntStr (i : Int) : String :=
  if i < 0 then ⟨'-' :: natDigitsFuel (i.natAbs + 1) i.natAbs⟩
  else ⟨natDigitsFuel (i.natAbs + 1) i.natAbs⟩

/-- Digit-string value; none when empty or a non-digit occurs. -/
def digitsVal (cs : List Char) : Option Nat :=
  if cs ≠ [] ∧ cs.all Char.isDigit then
    some (cs.foldl (fun a c => a * 10 + (c.toNat - 48)) 0)
  else none

/-- Python int(string) on plain decimal strings: optional surrounding
whitespace, optional sign, then digits; none models ValueError. -/
def parsePyInt (s : String) : Option Int :=
  match (trimS s).data with
  | '-' :: cs => (digitsVal cs).map (fun n => -(n : Int))
  | '+' :: cs => (digitsVal cs).map (fun n => (n : Int))
  | cs => (digitsVal cs).map (fun n => (n : Int))

/-! ### Configuration handler (src/training_manager/config_handler.py) -/

/-- Configuration state: the merged (defaults plus file) option table of
the ConfigParser, as a list of (section, option, value) entries. -/
def Cfg : Type := List (String × String × String)

/-- Raw option lookup, as ConfigParser.get without fallback. -/
def cfgLookup (c : Cfg) (sec opt : String) : Option String :=
  (List.find? (fun e => e.1 == sec && e.2.1 == opt) c).map (fun e => e.2.2)

/-- ConfigHandler.get: lookup with a fallback value. -/
def cfgGet (c : Cfg) (sec opt fb : String) : String :=
  (cfgLookup c sec opt).getD fb

/-- ConfigParser boolean states: 1/yes/true/on and 0/no/false/off,
case-insensitive; anything else raises ValueError. -/
def pyBool (s : String) : Option Bool :=
  let t := lowerS s
  if t == "1" || t == "yes" || t == "true" || t == "on" then some true
  else if t == "0" || t == "no" || t == "false" || t == "off" then some false
  else none

/-- ConfigHandler.getboolean: missing option or parse failure falls back. -/
def cfgGetBool (c : Cfg) (sec opt : String) (fb : Bool) : Bool :=
  match cfgLookup c sec opt with
  | none => fb
  | some v => (pyBool v).getD fb

/-- ConfigHandler.get_list: comma-separated list with stripping; an
absent or empty value yields the fallback list. -/
def cfgGetList (c : Cfg) (sec opt : String) (fb : List String) : List String :=
  let v := (cfgLookup c sec opt).getD ""
  if v == "" then fb else (splitOnS v ",").map trimS

/-- A GPU assignment: the Python code returns either a single device id
string or a list of device ids. -/
inductive GpuAssign : Type
  | single (g : String)
  | multi (gs : List String)
deriving DecidableEq, Repr

/-- The comma-joined CUDA_VISIBLE_DEVICES string built in
start_training_process from an assignment. -/
def cudaDevices : GpuAssign → String
  | .single g => g
  | .multi gs => joinS "," gs

/-- Dictionary insert (later pairs overwrite earlier ones). -/
def mapUpsert (m : List (Int × GpuAssign)) (k : Int) (v : GpuAssign) :
    List (Int × GpuAssign) :=
  if m.any (fun e => e.1 == k) then
    m.map (fun e => if e.1 == k then (k, v) else e)
  else m ++ [(k, v)]

/-- ConfigHandler.get_process_gpu_mapping: parse
general/process_gpu_mapping entries of the form processN=ids where ids
may contain + for a multi-GPU list. -/
def getProcessGpuMapping (c : Cfg) : List (Int × GpuAssign) :=
  let s := cfgGet c "general" "process_gpu_mapping" ""
  if s == "" then [] else
  (splitOnS s ",").foldl (fun m pair =>
    if (splitOnS pair "=").length > 1 then
      match splitOnS (trimS pair) "=" with
      | [] => m
      | k :: rest =>
        let val := joinS "=" rest
        if startsWithS k "process" then
          match parsePyInt (dropS k 7) with
          | some idx =>
            if (splitOnS val "+").length > 1 then
              mapUpsert m idx (.multi ((splitOnS val "+").map trimS))
            else
              mapUpsert m idx (.single (trimS val))
          | none => m
        else m
    else m) []

/-- ConfigHandler.assign_gpu_to_process_index. -/
def assignGpuToProcessIndex (c : Cfg) (i : Nat) : GpuAssign :=
  if ¬ cfgGetBool c "gpu" "enable_gpu_assignment" true then .single ""
  else
    match (getProcessGpuMapping c).find? (fun e => e.1 == (i : Int)) with
    | some e => e.2
    | none =>
      let L := cfgGetList c "gpu" "gpu_list" ["0"]
      if L.isEmpty then .single (cfgGet c "gpu" "default_gpu" "0")
      else if cfgGetBool c "gpu" "allow_multi_gpu" true && decide (1 < L.length) then
        if i == 0 then .multi L
        else .single (L.getD ((i - 1) % L.length) "")
      else .single (L.getD (i % L.length) "")

/-- Concrete configuration with an empty gpu_list and default_gpu 3. -/
def cfgEmptyGpuList : Cfg :=
  [("gpu", "enable_gpu_assignment", "true"),
   ("gpu", "gpu_list", ""),
   ("gpu", "default_gpu", "3"),
   ("gpu", "allow_multi_gpu", "true")]

/-- Concrete configuration with gpu_list 0,1 and multi-GPU allowed. -/
def cfgTwoGpus : Cfg :=
  [("gpu", "enable_gpu_assignment", "true"),
   ("gpu", "gpu_list", "0,1"),
   ("gpu", "allow_multi_gpu", "true")]

theorem cfgGetList_empty_fallback (c : Cfg)
    (h : cfgLookup c "gpu" "gpu_list" = none ∨ cfgLookup c "gpu" "gpu_list" = some "") :
    cfgGetList c "gpu" "gpu_list" ["0"] = ["0"] := by
  rcases h with h | h <;> simp [cfgGetList, h]

/-- Claim C8 (counterexample): with enable_gpu_assignment true, no
process_gpu_mapping entry, an empty gpu_list and default_gpu configured
as 3, the assigner returns the device 0 (from the hard-coded get_list
fallback) and not the configured default_gpu value 3. -/
theorem assign_gpu_empty_list_cex :
    assignGpuToProcessIndex cfgEmptyGpuList 1 = .single "0" ∧
    cfgGet cfgEmptyGpuList "gpu" "default_gpu" "0" = "3" ∧
    GpuAssign.single "0" ≠ GpuAssign.single "3" := by
  refine ⟨by decide, by decide, by decide⟩

/-- Claim C8 (amended): when enable_gpu_assignment is true,
process_gpu_mapping has no entry for the slot and the configured
gpu_list is empty (absent or the empty string), get_list substitutes
its fallback list containing only device 0, so the assigner returns the
single device 0 for every slot; the default_gpu branch is not taken. -/
theorem assign_gpu_empty_list_fallback_zero (c : Cfg) (i : Nat)
    (hen : cfgGetBool c "gpu" "enable_gpu_assignment" true = true)
    (hmap : (getProcessGpuMapping c).find? (fun e => e.1 == (i : Int)) = none)
    (hempty : cfgLookup c "gpu" "gpu_list" = none ∨
      cfgLookup c "gpu" "gpu_list" = some "") :
    assignGpuToProcessIndex c i = .single "0" := by
  have hL := cfgGetList_empty_fallback c hempty
  simp only [assignGpuToProcessIndex, hen, hmap, hL]
  simp [Nat.mod_one]

theorem assign_gpu_empty_list_fallback_zero_witness :
    assignGpuToProcessIndex cfgEmptyGpuList 2 = .single "0" :=
  assign_gpu_empty_list_fallback_zero cfgEmptyGpuList 2 (by decide) (by decide)
    (Or.inr (by decide))

/-- Claim C9: with enable_gpu_assignment true, no mapping entry for the
slot, allow_multi_gpu true and a gpu_list of more than one device, slot
0 receives the whole list (joined with commas for
CUDA_VISIBLE_DEVICES) and every later slot i receives the single device
at position (i-1) mod len. -/
theorem assign_gpu_multi_gpu_policy (c : Cfg) (i : Nat)
    (hen : cfgGetBool c "gpu" "enable_gpu_assignment" true = true)
    (hmap : (getProcessGpuMapping c).find? (fun e => e.1 == (i : Int)) = none)
    (hmulti : cfgGetBool c "gpu" "allow_multi_gpu" true = true)
    (hlen : 1 < (cfgGetList c "gpu" "gpu_list" ["0"]).length) :
    (i = 0 → assignGpuToProcessIndex c i = .multi (cfgGetList c "gpu" "gpu_list" ["0"]) ∧
      cudaDevices (assignGpuToProcessIndex c i) =
        joinS "," (cfgGetList c "gpu" "gpu_list" ["0"])) ∧
    (0 < i → assignGpuToProcessIndex c i =
      .single ((cfgGetList c "gpu" "gpu_list" ["0"]).getD
        ((i - 1) % (cfgGetList c "gpu" "gpu_list" ["0"]).length) "")) := by
  have hne : (cfgGetList c "gpu" "gpu_list" ["0"]).isEmpty = false := by
    cases h : (cfgGetList c "gpu" "gpu_list" ["0"]) with
    | nil => rw [h] at hlen; simp at hlen
    | cons a l => simp [h]
  constructor
  · intro hi
    subst hi
    simp only [Nat.cast_zero] at hmap
    simp [assignGpuToProcessIndex, hen, hmap, hne, hmulti, hlen, cudaDevices]
  · intro hi
    have hi0 : (i == 0) = false := by
      rcases i with _ | n
      · omega
      · rfl
    simp [assignGpuToProcessIndex, hen, hmap, hne, hmulti, hlen, hi0]

theorem assign_gpu_multi_gpu_policy_witness :
    0 < 1 ∧ assignGpuToProcessIndex cfgTwoGpus 1 = .single "0" :=
  ⟨by decide,
    (assign_gpu_multi_gpu_policy cfgTwoGpus 1 (by decide) (by decide) (by decide)
      (by decide)).2 (by decide)⟩

/-! ### Table store (src/training_manager/csv_handler.py) -/

/-- The persisted experiment table: a header of column names and
row-aligned string cells (rectangular, one cell per column). -/
structure Csv : Type where
  cols : List String
  rows : List (List String)
deriving DecidableEq, Repr

/-- Serialisation as written by to_csv with index=False and an empty
na_rep: header line then one comma-joined line per row, with a
terminating newline. -/
def csvSerialize (t : Csv) : String :=
  joinS "\n" (joinS "," t.cols :: t.rows.map (joinS ",")) ++ "\n"

/-- Cell of a row at a named column ("" when the column is absent). -/
def rowCell (cols : List String) (r : List String) (c : String) : String :=
  match cols.indexOf? c with
  | none => ""
  | some k => r.getD k ""

/-- Overwrite the cell of a row at a named column. -/
def rowSetCell (cols : List String) (r : List String) (c v : String) : List String :=
  match cols.indexOf? c with
  | none => r
  | some k => r.set k v

/-- File-system operations performed by a table rewrite.  Opening with
mode w truncates; a separate op records the content write, so that the
truncated intermediate state is part of the trace. -/
inductive FsOp : Type
  | truncate (path : String)
  | writeAll (path : String) (content : String)
  | renameOp (src dst : String)
deriving DecidableEq, Repr

/-- CSVHandler.update_value(model_id, column, value): after reloading
(the argument t is the current file content), locate the rows whose ID
cell equals model_id; a missing ID column raises KeyError which the
handler catches (False, no write); an empty match or an unknown column
returns False without writing; otherwise every matching row is updated
and the whole table is written back by a single truncating to_csv call
on the original path.  Result: success flag, resulting table content,
and the trace of file operations. -/
def updateValue (t : Csv) (path id col val : String) :
    Bool × Csv × List FsOp :=
  match t.cols.indexOf? "ID" with
  | none => (false, t, [])
  | some k =>
    if t.rows.any (fun r => r.getD k "" == id) then
      if t.cols.contains col then
        let t' : Csv :=
          ⟨t.cols, t.rows.map (fun r => if r.getD k "" == id then rowSetCell t.cols r col val else r)⟩
        (true, t', [.truncate path, .writeAll path (csvSerialize t')])
      else (false, t, [])
    else (false, t, [])

/-- Successive contents of the target file along a trace of operations,
starting from the pre-state.  Renames of another file onto the target
do not occur in traces of this program, so only truncations and writes
of the target change its content. -/
def statesOfTarget (path pre : String) (ops : List FsOp) : List String :=
  ops.foldl (fun acc op =>
    match op with
    | .truncate p => if p == path then acc ++ [""] else acc
    | .writeAll p c => if p == path then acc ++ [c] else acc
    | .renameOp _ _ => acc) [pre]

/-- The write pattern the spec requires: everything is written to a
sibling temporary file and the original is replaced in one atomic
rename, so the target is only ever touched by the final rename. -/
def atomicReplaceTrace (ops : List FsOp) (target : String) : Prop :=
  ∃ tmp content, tmp ≠ target ∧
    ops = [.truncate tmp, .writeAll tmp content, .renameOp tmp target]

/-- A one-row table used for the concrete update below. -/
def csvSample : Csv :=
  ⟨["ID", "Name", "TrainingCheck"], [["exp1", "first", ""]]⟩

/-- Claim C2 (counterexample): updating TrainingCheck of the existing
row exp1 on an existing column does not follow the sibling-temp-file
plus atomic-replace pattern: the trace truncates and rewrites the
original path itself, and the truncated empty intermediate state is
observable on the target file even though it equals neither the
pre-write nor the post-write content. -/
theorem updateValue_not_atomic_replace_cex :
    ¬ atomicReplaceTrace
        (updateValue csvSample "tbl.csv" "exp1" "TrainingCheck" "Training").2.2
        "tbl.csv" ∧
    "" ∈ statesOfTarget "tbl.csv" (csvSerialize csvSample)
        (updateValue csvSample "tbl.csv" "exp1" "TrainingCheck" "Training").2.2 ∧
    "" ≠ csvSerialize csvSample ∧
    "" ≠ csvSerialize (updateValue csvSample "tbl.csv" "exp1" "TrainingCheck" "Training").2.1 := by
  refine ⟨?_, by decide, by decide, by decide⟩
  rintro ⟨tmp, content, hne, heq⟩
  have : (updateValue csvSample "tbl.csv" "exp1" "TrainingCheck" "Training").2.2.length = 2 := by
    decide
  rw [heq] at this
  simp at this

/-- Claim C2 (amended): update_value on an existing row and existing
column rewrites the table file in place: it returns True, the new
content carries the update, and the operation trace is a truncation of
the original path followed by a single full write of the new
serialisation; no temporary file and no rename are involved, and the
truncated empty state is observable on the target in between. -/
theorem updateValue_in_place_rewrite (t : Csv) (path id col val : String) (k : Nat)
    (hk : t.cols.indexOf? "ID" = some k)
    (hrow : t.rows.any (fun r => r.getD k "" == id) = true)
    (hcol : t.cols.contains col = true) :
    updateValue t path id col val =
      (true,
       ⟨t.cols, t.rows.map (fun r => if r.getD k "" == id then rowSetCell t.cols r col val else r)⟩,
       [.truncate path,
        .writeAll path (csvSerialize
          ⟨t.cols, t.rows.map (fun r => if r.getD k "" == id then rowSetCell t.cols r col val else r)⟩)]) ∧
    "" ∈ statesOfTarget path (csvSerialize t) (updateValue t path id col val).2.2 := by
  have h1 : updateValue t path id col val =
      (true,
       ⟨t.cols, t.rows.map (fun r => if r.getD k "" == id then rowSetCell t.cols r col val else r)⟩,
       [.truncate path,
        .writeAll path (csvSerialize
          ⟨t.cols, t.rows.map (fun r => if r.getD k "" == id then rowSetCell t.cols r col val else r)⟩)]) := by
    unfold updateValue
    simp only [hk, hrow, hcol]
    simp
  refine ⟨h1, ?_⟩
  rw [h1]
  simp [statesOfTarget]

theorem updateValue_in_place_rewrite_witness :
    "" ∈ statesOfTarget "tbl.csv" (csvSerialize csvSample)
      (updateValue csvSample "tbl.csv" "exp1" "TrainingCheck" "Training").2.2 :=
  (updateValue_in_place_rewrite csvSample "tbl.csv" "exp1" "TrainingCheck" "Training" 0
    (by decide) (by decide) (by decide)).2

/-- Claim C10: when after reload no row has the requested ID (or the ID
column itself is missing, which surfaces as a caught KeyError), or the
requested column is not a column of the table, update_value returns
False, leaves the table content unchanged and performs no file
operation at all. -/
theorem updateValue_missing_row_or_column_noop (t : Csv) (path id col val : String)
    (h : (∀ r ∈ t.rows, rowCell t.cols r "ID" ≠ id) ∨ t.cols.contains col = false) :
    updateValue t path id col val = (false, t, []) := by
  unfold updateValue
  cases hk : t.cols.indexOf? "ID" with
  | none => rfl
  | some k =>
    simp only []
    rcases h with h | h
    · have hany : (t.rows.any fun r => r.getD k "" == id) = false := by
        rw [List.any_eq_false]
        intro r hr
        have h2 := h r hr
        simp only [rowCell, hk] at h2
        simpa using h2
      simp only [hany]
      simp
    · cases hany : t.rows.any (fun r => r.getD k "" == id) with
      | false => simp
      | true => simp only [h]; simp

theorem updateValue_missing_row_or_column_noop_witness :
    updateValue csvSample "tbl.csv" "nosuch" "TrainingCheck" "Done" = (false, csvSample, []) :=
  updateValue_missing_row_or_column_noop csvSample "tbl.csv" "nosuch" "TrainingCheck" "Done"
    (Or.inl (by decide))

/-! ### Process supervisor records and the process-record mutex
(src/training_manager/process_manager.py) -/

/-- The fields of a process record that the modelled operations read or
write: discovered wandb run id and run name, the log-terminal flag, and
the poll state of the OS process (running, else its return code). -/
structure ProcRecord : Type where
  runId : Option String
  runName : Option String
  logTerminalOpened : Bool
  running : Bool
  returncode : Int
deriving DecidableEq, Repr

/-- ProcessManager state: the process-record table keyed by model id.
The single non-reentrant mutex is modelled at each operation by an
explicit held flag rather than stored state. -/
structure PMState : Type where
  processes : List (String × ProcRecord)

/-- Acquiring the non-reentrant threading.Lock: blocks forever (none)
when the lock is already held. -/
def lockAcquire (held : Bool) : Option Unit :=
  if held then none else some ()

/-- The serialisable snapshot built by get_process_status. -/
structure ProcStatusInfo : Type where
  status : String
  returnCode : Option Int
  runId : Option String
  runName : Option String
deriving DecidableEq, Repr

/-- The pure content of get_process_status once the mutex is held:
not_found for a missing record, else running, or completed/error by
return code. -/
def mkStatusInfo (id : String) (st : PMState) : ProcStatusInfo :=
  match st.processes.find? (fun e => e.1 == id) with
  | none => ⟨"not_found", none, none, none⟩
  | some e =>
    if e.2.running then ⟨"running", none, e.2.runId, e.2.runName⟩
    else ⟨if e.2.returncode == 0 then "completed" else "error",
          some e.2.returncode, e.2.runId, e.2.runName⟩

/-- ProcessManager.get_process_status: acquires the mutex (with the
given held flag for the calling worker), then snapshots. -/
def getProcessStatusL (held : Bool) (st : PMState) (id : String) :
    Option ProcStatusInfo :=
  (lockAcquire held).map (fun _ => mkStatusInfo id st)

/-- Loop body of get_all_processes: for every record call
get_process_status while the table mutex is already held. -/
def getAllProcessesGo (st : PMState) :
    List (String × ProcRecord) → Option (List (String × ProcStatusInfo))
  | [] => some []
  | (id, _) :: rest =>
    match getProcessStatusL true st id with
    | none => none
    | some s => (getAllProcessesGo st rest).map (fun l => (id, s) :: l)

/-- ProcessManager.get_all_processes: acquires the mutex, then calls
get_process_status for each record with the mutex still held. -/
def getAllProcesses (st : PMState) : Option (List (String × ProcStatusInfo)) :=
  match lockAcquire false with
  | none => none
  | some _ => getAllProcessesGo st st.processes

/-- A supervisor state holding a single live process record. -/
def pmOneProcess : PMState :=
  ⟨[("exp1", ⟨some "run-abc123", some "crisp-oak-7", false, true, 0⟩)]⟩

/-- Claim C1 (code bug): get_all_processes holds the non-reentrant
process-record mutex and then calls get_process_status, which acquires
the same mutex again, for every record; hence the status query blocks
forever (models to none) exactly when at least one process record
exists, instead of terminating with a snapshot.  The scheduler calls it
every tick, so any tick with a live process deadlocks. -/
theorem getAllProcesses_deadlocks_self :
    (∀ st : PMState, (getAllProcesses st = none ↔ st.processes ≠ [])) ∧
    getAllProcesses pmOneProcess = none := by
  have main : ∀ st : PMState, (getAllProcesses st = none ↔ st.processes ≠ []) := by
    intro st
    unfold getAllProcesses
    cases h : st.processes with
    | nil => simp [lockAcquire, getAllProcessesGo, h]
    | cons e rest =>
      cases e with
      | mk id r =>
        simp [lockAcquire, getAllProcessesGo, getProcessStatusL, h]
  exact ⟨main, (main pmOneProcess).2 (by decide)⟩

/-! ### Stderr stream parsing (_read_output_stream) -/

/-- The part of a string after the first occurrence of pat (the second
element of str.split(pat, 1)); none when pat does not occur. -/
def afterFirstS (s pat : String) : Option String :=
  match splitOnS s pat with
  | [] => none
  | [_] => none
  | _ :: rest => some (joinS pat rest)

/-- Run-id detection for a completed stderr line: a line containing
wandb (case-insensitive) and the literal run- takes the part between
the first and second occurrence of run-, then its first whitespace
token; empty results are discarded. -/
def extractRunId (line : String) : Option String :=
  if containsS (lowerS line) "wandb" && containsS line "run-" then
    let parts := splitOnS line "run-"
    if parts.length > 1 then
      match wsTokens (parts.getD 1 "") with
      | [] => none
      | tok :: _ =>
        let ridPart := trimS tok
        if ridPart != "" then some ("run-" ++ ridPart) else none
    else none
  else none

/-- Fallback run-name scan: the whitespace token immediately after a
bare token equal to run (case-insensitive). -/
def fallbackRunToken : List String → Option String
  | [] => none
  | [_] => none
  | p :: q :: rest =>
    if lowerS p == "run" then some q else fallbackRunToken (q :: rest)

/-- The literal split patterns tried in order for the Syncing run line. -/
def syncingPatterns : List String :=
  ["wandb: Syncing run ", "wandb: syncing run ",
   "wandb: Syncing run\t", "wandb: syncing run\t",
   "wandb:Syncing run ", "wandb:syncing run ",
   "wandb: Syncing run", "wandb: syncing run"]

/-- Run-name detection for a completed stderr line: lines containing
wandb: and a syncing-run marker; the name part comes from the first
matching literal pattern, else from the whitespace fallback; the first
whitespace token of the name part is kept when non-empty and at most
100 characters long. -/
def extractRunName (line : String) : Option String :=
  if containsS line "wandb:" &&
      (containsS (lowerS line) "syncing run" || containsS line "Syncing run") then
    let fromPats := syncingPatterns.findSome?
      (fun p => if containsS line p then afterFirstS line p else none)
    let namePart :=
      match fromPats with
      | some np => some np
      | none =>
        if containsS line "wandb:" && containsS line "run" then
          fallbackRunToken (wsTokens line)
        else none
    match namePart with
    | none => none
    | some np =>
      if np != "" then
        match wsTokens np with
        | [] => none
        | tok :: _ =>
          let rn := trimS tok
          if rn != "" && decide (rn.data.length ≤ 100) then some rn else none
      else none
  else none

/-- Handling of one completed stderr line in _read_output_stream: the
run-id check runs first, then the syncing-run check; each successful
extraction is stored on the process record unconditionally. -/
def processStderrLine (rec : ProcRecord) (line : String) : ProcRecord :=
  let r1 :=
    match extractRunId line with
    | some rid => { rec with runId := some rid }
    | none => rec
  match extractRunName line with
  | some rn => { r1 with runName := some rn }
  | none => r1

/-- Handling of a sequence of completed stderr lines. -/
def processStderrLines (rec : ProcRecord) (lines : List String) : ProcRecord :=
  lines.foldl processStderrLine rec

/-- A fresh process record as stored by start_training_process. -/
def freshRecord : ProcRecord := ⟨none, none, false, true, 0⟩

/-- Claim C4 (counterexample): after the first syncing-run line records
the run name alpha, a second matching line changes the record to beta;
the first discovery is not kept. -/
theorem runName_overwritten_cex :
    (processStderrLines freshRecord ["wandb: Syncing run alpha"]).runName = some "alpha" ∧
    (processStderrLines freshRecord
      ["wandb: Syncing run alpha", "wandb: Syncing run beta"]).runName = some "beta" ∧
    ("beta" : String) ≠ "alpha" := by
  refine ⟨by decide, by decide, by decide⟩

/-- Claim C4 (amended): discoveries are written unconditionally: on any
stderr line from which a run name (resp. run id) is extracted, the
record field is set to that value whatever was recorded before, so the
last matching line wins rather than the first. -/
theorem processStderrLine_last_discovery_wins (rec : ProcRecord) (line : String) :
    (∀ rn, extractRunName line = some rn →
      (processStderrLine rec line).runName = some rn) ∧
    (∀ rid, extractRunId line = some rid →
      (processStderrLine rec line).runId = some rid) := by
  constructor
  · intro rn h
    unfold processStderrLine
    rw [h]
  · intro rid h
    unfold processStderrLine
    rw [h]
    cases extractRunName line <;> rfl

theorem processStderrLine_last_discovery_wins_witness :
    (processStderrLine ⟨some "run-old", some "alpha", false, true, 0⟩
      "wandb: Syncing run beta").runName = some "beta" :=
  (processStderrLine_last_discovery_wins
    ⟨some "run-old", some "alpha", false, true, 0⟩ "wandb: Syncing run beta").1
    "beta" (by decide)

/-! ### Experiment rows and scheduler operations
(src/training_manager/main_training_manager.py)

The scheduler always works on the fixed experiment schema, so its
table is modelled with structure rows; the update operations below are
CSVHandler.update_value specialised to that schema (every row whose ID
matches is updated; an unknown id is a no-op, matching the False
return).  Empty cells are the empty string; where the pandas NaN
truthiness of an empty cell changes a branch the modelled outcome is
noted at the definition. -/

/-- One row of the experiment table. -/
structure ExpRow : Type where
  id : String
  name : String
  trainingCommand : String
  trainingCheck : String
  wandbRunID : String
  weightFile : String
  gpuID : String
  pretrainedModelId : String
deriving DecidableEq, Repr

/-- The columns the scheduler writes. -/
inductive ExpField : Type
  | trainingCheck
  | wandbRunID
  | weightFile
  | pretrainedModelId
deriving DecidableEq, Repr

/-- Overwrite one field of a row. -/
def setField (r : ExpRow) : ExpField → String → ExpRow
  | .trainingCheck, v => { r with trainingCheck := v }
  | .wandbRunID, v => { r with wandbRunID := v }
  | .weightFile, v => { r with weightFile := v }
  | .pretrainedModelId, v => { r with pretrainedModelId := v }

/-- update_value on the experiment schema: set the field on every row
whose ID matches. -/
def tableUpdate (t : List ExpRow) (id : String) (f : ExpField) (v : String) :
    List ExpRow :=
  t.map (fun r => if r.id == id then setField r f v else r)

/-- File system oracle: dirs d is the in-order listing of d when d is
an existing directory, none otherwise. -/
structure Fs : Type where
  dirs : String → Option (List String)

/-- os.path.join for the paths the manager builds. -/
def pathJoin (a b : String) : String :=
  if startsWithS b "/" then b
  else if a == "" then b
  else if endsWithS a "/" then a ++ b
  else a ++ "/" ++ b

/-- An exact decimal loss value num / 10 ^ scale as parsed by float()
from the checkpoint name (decimal notation without an exponent). -/
structure Loss : Type where
  num : Nat
  scale : Nat
deriving DecidableEq, Repr

/-- Strict comparison of two decimal losses by cross multiplication. -/
def lossLt (a b : Loss) : Bool :=
  decide (a.num * 10 ^ b.scale < b.num * 10 ^ a.scale)

/-- Non-strict comparison of two decimal losses. -/
def lossLe (a b : Loss) : Prop :=
  a.num * 10 ^ b.scale ≤ b.num * 10 ^ a.scale

/-- Value of a digit list (empty list reads as 0, as in float("1.")). -/
def digitsNat (cs : List Char) : Nat :=
  cs.foldl (fun a c => a * 10 + (c.toNat - 48)) 0

/-- float() on the characters captured by the regex group [0-9.]+ : at
most one dot and at least one digit, read as an exact decimal; none
models ValueError (as raised for example on 1.2.3). -/
def parseLossChars (cs : List Char) : Option Loss :=
  if cs.any Char.isDigit ∧ (cs.filter (fun c => c == '.')).length ≤ 1 then
    match splitOnFuel ['.'] (cs.length + 1) cs [] with
    | [ip] => some ⟨digitsNat ip, 0⟩
    | [ip, fp] => some ⟨digitsNat ip * 10 ^ fp.length + digitsNat fp, fp.length⟩
    | _ => none
  else none

/-- re.match of model_([0-9.]+)_([0-9]+)\.pth against a file name,
combined with float() on the first group.  Since neither character
class contains the underscore, the regex engine can only take the
maximal runs: after the literal model_ the first group is the maximal
run over [0-9.], which must be non-empty and followed by an
underscore; the second group is the maximal digit run, non-empty and
followed by the literal .pth (trailing characters are allowed, as
re.match is only anchored at the start). -/
def weightLoss (f : String) : Option Loss :=
  let cs := f.data
  if ("model_".data).isPrefixOf cs then
    let rest := cs.drop 6
    let a := rest.takeWhile (fun c => c.isDigit || c == '.')
    if a.isEmpty then none
    else
      match rest.dropWhile (fun c => c.isDigit || c == '.') with
      | '_' :: r2 =>
        let b := r2.takeWhile Char.isDigit
        if b.isEmpty then none
        else if (".pth".data).isPrefixOf (r2.dropWhile Char.isDigit) then
          parseLossChars a
        else none
      | _ => none
  else none

/-- Loop of _find_best_weight_file: keep the first file strictly better
than the best so far; files that fail the regex or float() are skipped. -/
def pickBest : List String → Option (String × Loss) → Option (String × Loss)
  | [], acc => acc
  | f :: rest, acc =>
    match weightLoss f with
    | none => pickBest rest acc
    | some l =>
      match acc with
      | none => pickBest rest (some (f, l))
      | some (bf, bl) =>
        if lossLt l bl then pickBest rest (some (f, l))
        else pickBest rest (some (bf, bl))

/-- _find_best_weight_file on a directory listing: only .pth files are
considered; the lowest-loss pattern match wins, else the first .pth
file is returned with a warning; an empty candidate list yields none. -/
def findBestWeightFile (dir : String) (files : List String) : Option String :=
  match files.filter (fun f => endsWithS f ".pth") with
  | [] => none
  | f0 :: rest =>
    match pickBest (f0 :: rest) none with
    | some bfl => some (pathJoin dir bfl.1)
    | none => some (pathJoin dir f0)

/-- _find_pretrained_weight_file: look the referenced row up in the
current table, require a non-blank WeightFile cell (a NaN cell escapes
the blank test but then raises in os.path.exists, also yielding none),
try the stored directory as given and then relative to the training
base directory, and search it for the best checkpoint. -/
def findPretrainedWeightFile (t : List ExpRow) (fs : Fs) (baseDir pid : String) :
    Option String :=
  match t.find? (fun r => r.id == pid) with
  | none => none
  | some row =>
    if trimS row.weightFile == "" then none
    else
      match fs.dirs row.weightFile with
      | some files => findBestWeightFile row.weightFile files
      | none =>
        match fs.dirs (pathJoin baseDir row.weightFile) with
        | some files => findBestWeightFile (pathJoin baseDir row.weightFile) files
        | none => none

/-- The spawn request issued to
ProcessManager.start_training_process by one admission step. -/
structure SpawnCall : Type where
  modelId : String
  command : String
  gpuId : Option String
  args : List (String × String)
deriving DecidableEq, Repr

/-- Environment of an admission pass: file system, training base
directory, per-row spawn outcome, and the gpu/use_process_order flag. -/
structure AdmissionEnv : Type where
  fs : Fs
  baseDir : String
  spawnOk : String → Bool
  useProcessOrder : Bool

/-- Result of admitting one row. -/
structure AdmitResult : Type where
  table : List ExpRow
  ok : Bool
  call : Option SpawnCall
deriving Repr

/-- One iteration of the admission loop of _start_new_trainings for a
snapshot row r over the current table t: resolve the pretrained
reference (negating the stored id to -abs(id) when resolution fails
and the id parses as an integer), mark the row Training, spawn, and
mark it Crash when the spawn fails.  A blank command takes the
skip branch; in pandas the blank cell is NaN, which instead reaches the
spawn and fails there, and on either reading the row spawns nothing
and the running count is unchanged. -/
def admitRow (env : AdmissionEnv) (t : List ExpRow) (r : ExpRow) : AdmitResult :=
  if r.trainingCommand == "" then ⟨t, false, none⟩
  else
    let pr : List ExpRow × List (String × String) :=
      if r.pretrainedModelId != "" then
        let pid := trimS r.pretrainedModelId
        if pid != "nan" then
          match findPretrainedWeightFile t env.fs env.baseDir pid with
          | some wf => (t, [("pretrained_path", wf)])
          | none =>
            match parsePyInt pid with
            | some n =>
              (tableUpdate t r.id .pretrainedModelId (pyIntStr (-(n.natAbs : Int))), [])
            | none => (t, [])
        else (t, [])
      else (t, [])
    let t2 := tableUpdate pr.1 r.id .trainingCheck "Training"
    let gpu : Option String :=
      if ¬ env.useProcessOrder ∧ r.gpuID != "" then some r.gpuID else none
    let call : SpawnCall := ⟨r.id, r.trainingCommand, gpu, pr.2⟩
    if env.spawnOk r.id then ⟨t2, true, some call⟩
    else ⟨tableUpdate t2 r.id .trainingCheck "Crash", false, some call⟩

/-- Scheduler settings read from the manager state; auto_continue is a
field of the manager but _start_new_trainings never reads it. -/
structure SchedCfg : Type where
  maxTrainingProcess : Nat
  autoContinue : Bool
deriving DecidableEq, Repr

/-- The admission loop over the snapshot of untrained rows, breaking
once the running count reaches the ceiling. -/
def startLoop (env : AdmissionEnv) (maxP : Nat) :
    List ExpRow → List ExpRow → Nat → List ExpRow × Nat
  | t, [], c => (t, c)
  | t, r :: rest, c =>
    if maxP ≤ c then (t, c)
    else
      let res := admitRow env t r
      startLoop env maxP res.table rest (if res.ok then c + 1 else c)

/-- Number of process records whose status is running. -/
def countRunning (statuses : List String) : Nat :=
  (statuses.filter (fun s => s == "running")).length

/-- Result of one _start_new_trainings pass. -/
structure SchedResult : Type where
  table : List ExpRow
  finalRunning : Nat
  stopCalled : Bool
deriving DecidableEq, Repr

/-- _start_new_trainings: count running process records (the data flow
of the get_all_processes call; its mutex self-deadlock is the separate
concern of the lock model above), return early when the ceiling is
reached, admit untrained rows, and call stop() exactly when the final
running count is 0.  No auto_continue test occurs anywhere in it. -/
def startNewTrainings (cfg : SchedCfg) (env : AdmissionEnv)
    (procStatuses : List String) (t : List ExpRow) : SchedResult :=
  let c0 := countRunning procStatuses
  if cfg.maxTrainingProcess ≤ c0 then ⟨t, c0, false⟩
  else
    let res := startLoop env cfg.maxTrainingProcess t
      (t.filter (fun r => r.trainingCheck == "")) c0
    ⟨res.1, res.2, res.2 == 0⟩

/-- A file system with no directories. -/
def fsNone : Fs := ⟨fun _ => none⟩

/-- Admission environment with no directories, successful spawns, and
process-order GPU assignment. -/
def envPlain : AdmissionEnv := ⟨fsNone, "/base", fun _ => true, true⟩

/-- A drained table: the single row is already Done. -/
def tableAllDone : List ExpRow :=
  [⟨"exp1", "one", "python train.py", "Done", "run-abc", "crisp-oak-7", "", ""⟩]

/-- Claim C3 (counterexample): with auto_continue true, no process
records and no admissible rows, the admission pass still signals
supervisor shutdown (stop() is called); the result is identical for
auto_continue false, so the control loop does not keep looping when
auto_continue is true. -/
theorem startNewTrainings_stops_despite_auto_continue_cex :
    (startNewTrainings ⟨1, true⟩ envPlain [] tableAllDone).stopCalled = true ∧
    startNewTrainings ⟨1, true⟩ envPlain [] tableAllDone =
      startNewTrainings ⟨1, false⟩ envPlain [] tableAllDone := by
  exact ⟨by decide, by decide⟩

/-- Claim C3 (amended): at the end of an admission pass the scheduler
signals supervisor shutdown if and only if the pass was entered below
the concurrency ceiling and the running count at the end of the pass
is 0; auto_continue is never consulted (the result is the same for
either value) and remaining admissible rows are not consulted either. -/
theorem startNewTrainings_stop_condition (cfg : SchedCfg) (env : AdmissionEnv)
    (procStatuses : List String) (t : List ExpRow) :
    ((startNewTrainings cfg env procStatuses t).stopCalled = true ↔
      (countRunning procStatuses < cfg.maxTrainingProcess ∧
        (startNewTrainings cfg env procStatuses t).finalRunning = 0)) ∧
    (∀ b, startNewTrainings { cfg with autoContinue := b } env procStatuses t =
      startNewTrainings cfg env procStatuses t) := by
  constructor
  · unfold startNewTrainings
    by_cases h : cfg.maxTrainingProcess ≤ countRunning procStatuses
    · simp only [h, if_true]
      simp
      omega
    · simp only [h, if_false]
      simp only [SchedResult.stopCalled, SchedResult.finalRunning, beq_iff_eq]
      constructor
      · intro h2
        exact ⟨by omega, h2⟩
      · intro h2
        exact h2.2
  · intro b
    rfl

/-! ### Reconciliation of Training rows (_check_running_trainings) -/

/-- WandbMonitor.is_run_finished: the remote state is one of finished,
failed, crashed (an unreachable tracker surfaces as unknown). -/
def isRunFinished (st : String) : Bool :=
  st == "finished" || st == "failed" || st == "crashed"

/-- WandbMonitor.is_run_crashed: crashed or failed. -/
def isRunCrashed (st : String) : Bool :=
  st == "crashed" || st == "failed"

/-- Python truthiness of an optional string (None and the empty string
are falsy). -/
def optTruthy (o : Option String) : Bool :=
  match o with
  | some s => s != ""
  | none => false

/-- Oracles consulted while reconciling one Training row: liveness of
its process, presence of the wandb monitor, the remote state and
display name by run id, and the run id and run name discovered by the
stderr worker on the process record. -/
structure TickEnv : Type where
  isRunning : Bool
  hasMonitor : Bool
  state : String → String
  pmRunId : Option String
  pmRunName : Option String
  apiName : String → Option String

/-- One row of _check_running_trainings over the current table t, where
r is the snapshot row (its TrainingCheck is Training).  Dead process:
with a run id and a monitor, a finished-and-crashed state marks Crash,
finished-not-crashed marks Done and fills WeightFile from the stderr
run name, else from the tracker display name, else leaves it; a
not-finished state leaves the row; without run id or monitor the row
is marked Crash.  Live process: fill a blank WandbRunID from the
discovered run id, and a blank WeightFile from the discovered run name
or, failing that, the tracker display name of the known run id. -/
def checkRow (env : TickEnv) (t : List ExpRow) (r : ExpRow) : List ExpRow :=
  if ¬ env.isRunning then
    if r.wandbRunID != "" && env.hasMonitor then
      if isRunFinished (env.state r.wandbRunID) then
        if isRunCrashed (env.state r.wandbRunID) then
          tableUpdate t r.id .trainingCheck "Crash"
        else
          let t1 := tableUpdate t r.id .trainingCheck "Done"
          if optTruthy env.pmRunName then
            tableUpdate t1 r.id .weightFile (env.pmRunName.getD "")
          else
            match env.apiName r.wandbRunID with
            | some n => if n != "" then tableUpdate t1 r.id .weightFile n else t1
            | none => t1
      else t
    else tableUpdate t r.id .trainingCheck "Crash"
  else
    let t1 :=
      if r.wandbRunID == "" && optTruthy env.pmRunId then
        tableUpdate t r.id .wandbRunID (env.pmRunId.getD "")
      else t
    if r.weightFile == "" && env.hasMonitor then
      if optTruthy env.pmRunName then
        tableUpdate t1 r.id .weightFile (env.pmRunName.getD "")
      else
        let rid := if r.wandbRunID != "" then r.wandbRunID else env.pmRunId.getD ""
        if rid != "" then
          match env.apiName rid with
          | some n => if n != "" then tableUpdate t1 r.id .weightFile n else t1
          | none => t1
        else t1
    else t1

theorem setField_id (r : ExpRow) (f : ExpField) (v : String) :
    (setField r f v).id = r.id := by
  cases f <;> rfl

theorem find_tableUpdate (t : List ExpRow) (id : String) (f : ExpField) (v : String)
    (r₀ : ExpRow) (h : t.find? (fun x => x.id == id) = some r₀) :
    (tableUpdate t id f v).find? (fun x => x.id == id) = some (setField r₀ f v) := by
  induction t with
  | nil => simp at h
  | cons x xs ih =>
    cases hx : (x.id == id) with
    | true =>
      simp only [List.find?, hx] at h
      injection h with h
      subst h
      have hupd : tableUpdate (x :: xs) id f v =
          setField x f v :: tableUpdate xs id f v := by
        unfold tableUpdate
        rw [List.map_cons, if_pos hx]
      have hid : ((setField x f v).id == id) = true := by
        rw [setField_id]; exact hx
      rw [hupd]
      simp only [List.find?, hid]
    | false =>
      simp only [List.find?, hx] at h
      have hupd : tableUpdate (x :: xs) id f v = x :: tableUpdate xs id f v := by
        unfold tableUpdate
        rw [List.map_cons, if_neg (by simp [hx])]
      rw [hupd]
      simp only [List.find?, hx]
      exact ih h

theorem optTruthy_getD (o : Option String) (h : optTruthy o = true) :
    o.getD "" ≠ "" := by
  cases o with
  | none => simp [optTruthy] at h
  | some s => simpa [optTruthy] using h

/-- Dead process, tracker says finished, but neither the stderr worker
nor the tracker yields a run name. -/
def envFinishedNoName : TickEnv :=
  ⟨false, true, fun _ => "finished", none, none, fun _ => none⟩

/-- Like envFinishedNoName, but the stderr worker discovered a name. -/
def envFinishedWithName : TickEnv :=
  ⟨false, true, fun _ => "finished", none, some "crisp-oak-7", fun _ => none⟩

/-- A Training row with a run id and no WeightFile yet. -/
def rowTraining : ExpRow :=
  ⟨"exp1", "one", "python train.py", "Training", "run-abc", "", "", ""⟩

/-- The table holding just rowTraining. -/
def tableTraining : List ExpRow := [rowTraining]

/-- Claim C5 (counterexample): reconciling a Training row whose process
is gone while the tracker reports finished, when no run name was
discovered on the record and the tracker display-name lookup returns
nothing, marks the row Done and leaves WeightFile empty, so a Done row
with an empty WeightFile is reachable. -/
theorem done_row_empty_weightFile_cex :
    checkRow envFinishedNoName tableTraining rowTraining =
      [⟨"exp1", "one", "python train.py", "Done", "run-abc", "", "", ""⟩] ∧
    (⟨"exp1", "one", "python train.py", "Done", "run-abc", "", "", ""⟩ : ExpRow).trainingCheck
      = "Done" ∧
    (⟨"exp1", "one", "python train.py", "Done", "run-abc", "", "", ""⟩ : ExpRow).weightFile
      = "" := by
  exact ⟨by decide, rfl, rfl⟩

/-- Claim C5 (amended): when reconciliation marks a dead-process row
Done after the tracker reports a finished, non-crashed state, the row
ends the tick with a non-empty WeightFile provided a run name was
discovered, by the stderr worker or by the tracker display-name
lookup; when neither source yields a name the row stays Done with its
WeightFile empty. -/
theorem checkRow_done_weightFile_of_discovery (env : TickEnv) (t : List ExpRow)
    (r r₀ : ExpRow)
    (hnr : env.isRunning = false)
    (hmon : env.hasMonitor = true)
    (hrid : (r.wandbRunID != "") = true)
    (hfin : isRunFinished (env.state r.wandbRunID) = true)
    (hcr : isRunCrashed (env.state r.wandbRunID) = false)
    (hfind : t.find? (fun x => x.id == r.id) = some r₀)
    (hdisc : optTruthy env.pmRunName = true ∨
      (optTruthy env.pmRunName = false ∧
        ∃ n, env.apiName r.wandbRunID = some n ∧ n ≠ "")) :
    ∃ rf, (checkRow env t r).find? (fun x => x.id == r.id) = some rf ∧
      rf.trainingCheck = "Done" ∧ rf.weightFile ≠ "" := by
  unfold checkRow
  rw [hnr, hmon, hrid, hfin, hcr]
  simp only [Bool.not_false, Bool.and_true, if_true, if_false, Bool.false_eq_true,
    not_false_eq_true, ite_true, ite_false]
  rcases hdisc with hd | ⟨hnd, n, hn, hne⟩
  · rw [hd]
    simp only [if_true]
    refine ⟨setField (setField r₀ .trainingCheck "Done") .weightFile (env.pmRunName.getD ""),
      ?_, rfl, optTruthy_getD _ hd⟩
    exact find_tableUpdate _ _ _ _ _ (find_tableUpdate _ _ _ _ _ hfind)
  · rw [hnd]
    simp only [Bool.false_eq_true, if_false]
    simp only [hn]
    have hne2 : (n != "") = true := by simpa using hne
    rw [if_pos hne2]
    refine ⟨setField (setField r₀ .trainingCheck "Done") .weightFile n, ?_, rfl, hne⟩
    exact find_tableUpdate _ _ _ _ _ (find_tableUpdate _ _ _ _ _ hfind)

theorem checkRow_done_weightFile_of_discovery_witness :
    ∃ rf, (checkRow envFinishedWithName tableTraining rowTraining).find?
        (fun x => x.id == rowTraining.id) = some rf ∧
      rf.trainingCheck = "Done" ∧ rf.weightFile ≠ "" :=
  checkRow_done_weightFile_of_discovery envFinishedWithName tableTraining
    rowTraining rowTraining rfl rfl (by decide) (by decide) (by decide) (by decide)
    (Or.inl (by decide))

/-! ### Pretrained-reference negation during admission -/

/-- Row A with an integer id 7, Done, but an empty WeightFile. -/
def rowDoneEmptyWeight : ExpRow :=
  ⟨"7", "a", "python a.py", "Done", "run-a", "", "", ""⟩

/-- Row B referencing row 7 as its pretrained model. -/
def rowRefSeven : ExpRow :=
  ⟨"B", "b", "python b.py", "", "", "", "", "7"⟩

/-- Row A2 with a non-integer id, Done, and a WeightFile directory that
does not exist on disk (the file system below has no directories). -/
def rowDoneMissingDir : ExpRow :=
  ⟨"expA", "a", "python a.py", "Done", "run-a", "crisp-oak-7", "", ""⟩

/-- Row B2 referencing the non-integer id expA. -/
def rowRefExpA : ExpRow :=
  ⟨"B2", "b", "python b.py", "", "", "", "", "expA"⟩

/-- Claim C7 (counterexample): on the one hand, a referenced row whose
WeightFile is merely empty (its directory existence is never even
consulted) does get its reference negated: admission rewrites
PretrainedModelId 7 of row B to -7.  On the other hand, a non-integer
referenced id whose directory is missing is not negated: int() raises
ValueError and row B2 keeps PretrainedModelId expA.  Both rows spawn
without a pretrained_path argument. -/
theorem pretrained_negation_cex :
    (admitRow envPlain [rowDoneEmptyWeight, rowRefSeven] rowRefSeven).table =
      [rowDoneEmptyWeight,
       { rowRefSeven with trainingCheck := "Training", pretrainedModelId := "-7" }] ∧
    (admitRow envPlain [rowDoneEmptyWeight, rowRefSeven] rowRefSeven).call =
      some ⟨"B", "python b.py", none, []⟩ ∧
    (admitRow envPlain [rowDoneMissingDir, rowRefExpA] rowRefExpA).table =
      [rowDoneMissingDir, { rowRefExpA with trainingCheck := "Training" }] ∧
    (admitRow envPlain [rowDoneMissingDir, rowRefExpA] rowRefExpA).call =
      some ⟨"B2", "python b.py", none, []⟩ := by
  exact ⟨by decide, by decide, by decide, by decide⟩

/-- Claim C7 (amended): whenever the weight resolver returns no path
for the referenced id of an admissible row, whatever the reason (a
missing referenced row, an empty WeightFile, a missing directory, or
no usable checkpoint), admission spawns the row without a
pretrained_path argument and rewrites the stored PretrainedModelId to
-abs(id) exactly when the referenced id parses as an integer;
non-integer ids are left unchanged. -/
theorem pretrained_negation_behavior (env : AdmissionEnv) (t : List ExpRow)
    (r r₀ : ExpRow)
    (hcmd : (r.trainingCommand == "") = false)
    (hpid : (r.pretrainedModelId != "") = true)
    (hnan : (trimS r.pretrainedModelId != "nan") = true)
    (hres : findPretrainedWeightFile t env.fs env.baseDir (trimS r.pretrainedModelId) = none)
    (hfind : t.find? (fun x => x.id == r.id) = some r₀) :
    ∃ c, (admitRow env t r).call = some c ∧ c.args = [] ∧
      (∀ n, parsePyInt (trimS r.pretrainedModelId) = some n →
        ∃ rf, ((admitRow env t r).table.find? (fun x => x.id == r.id) = some rf ∧
          rf.pretrainedModelId = pyIntStr (-(n.natAbs : Int)))) ∧
      (parsePyInt (trimS r.pretrainedModelId) = none →
        ∃ rf, ((admitRow env t r).table.find? (fun x => x.id == r.id) = some rf ∧
          rf.pretrainedModelId = r₀.pretrainedModelId)) := by
  unfold admitRow
  rw [if_neg (by simp [hcmd])]
  simp only [hpid, if_true, hnan, hres]
  cases hp : parsePyInt (trimS r.pretrainedModelId) with
  | some n =>
    simp only
    cases hs : env.spawnOk r.id with
    | true =>
      rw [if_pos rfl]
      refine ⟨_, rfl, rfl, ?_, ?_⟩
      · intro m hm
        injection hm with hm
        subst hm
        exact ⟨_, find_tableUpdate _ _ _ _ _ (find_tableUpdate _ _ _ _ _ hfind), rfl⟩
      · intro hm
        exact absurd hm (by simp)
    | false =>
      rw [if_neg (by simp)]
      refine ⟨_, rfl, rfl, ?_, ?_⟩
      · intro m hm
        injection hm with hm
        subst hm
        exact ⟨_, find_tableUpdate _ _ _ _ _
          (find_tableUpdate _ _ _ _ _ (find_tableUpdate _ _ _ _ _ hfind)), rfl⟩
      · intro hm
        exact absurd hm (by simp)
  | none =>
    simp only
    cases hs : env.spawnOk r.id with
    | true =>
      rw [if_pos rfl]
      refine ⟨_, rfl, rfl, ?_, ?_⟩
      · intro m hm
        exact absurd hm (by simp)
      · intro _
        exact ⟨_, find_tableUpdate _ _ _ _ _ hfind, rfl⟩
    | false =>
      rw [if_neg (by simp)]
      refine ⟨_, rfl, rfl, ?_, ?_⟩
      · intro m hm
        exact absurd hm (by simp)
      · intro _
        exact ⟨_, find_tableUpdate _ _ _ _ _
          (find_tableUpdate _ _ _ _ _ hfind), rfl⟩

theorem pretrained_negation_behavior_witness :
    ∃ c, (admitRow envPlain [rowDoneEmptyWeight, rowRefSeven] rowRefSeven).call = some c ∧
      c.args = [] ∧
      (∀ n, parsePyInt (trimS rowRefSeven.pretrainedModelId) = some n →
        ∃ rf, ((admitRow envPlain [rowDoneEmptyWeight, rowRefSeven] rowRefSeven).table.find?
            (fun x => x.id == rowRefSeven.id) = some rf ∧
          rf.pretrainedModelId = pyIntStr (-(n.natAbs : Int)))) ∧
      (parsePyInt (trimS rowRefSeven.pretrainedModelId) = none →
        ∃ rf, ((admitRow envPlain [rowDoneEmptyWeight, rowRefSeven] rowRefSeven).table.find?
            (fun x => x.id == rowRefSeven.id) = some rf ∧
          rf.pretrainedModelId = rowRefSeven.pretrainedModelId)) :=
  pretrained_negation_behavior envPlain [rowDoneEmptyWeight, rowRefSeven]
    rowRefSeven rowRefSeven (by decide) (by decide) (by decide) (by decide)
    (by decide)

/-! ### Minimality of the selected checkpoint -/

theorem lossLe_refl (a : Loss) : lossLe a a := le_refl _

theorem lossLe_of_lt {a b : Loss} (h : lossLt a b = true) : lossLe a b :=
  Nat.le_of_lt (of_decide_eq_true h)

theorem lossLe_of_not_lt {a b : Loss} (h : lossLt a b = false) : lossLe b a :=
  Nat.le_of_not_lt (of_decide_eq_false h)

theorem lossLe_trans {a b c : Loss} (hab : lossLe a b) (hbc : lossLe b c) :
    lossLe a c := by
  unfold lossLe at *
  have hpos : 0 < 10 ^ b.scale := pow_pos (by norm_num) b.scale
  have h1 := mul_le_mul_right' hab (10 ^ c.scale)
  have h2 := mul_le_mul_right' hbc (10 ^ a.scale)
  refine Nat.le_of_mul_le_mul_right ?_ hpos
  calc a.num * 10 ^ c.scale * 10 ^ b.scale
      = a.num * 10 ^ b.scale * 10 ^ c.scale := by ring
    _ ≤ b.num * 10 ^ a.scale * 10 ^ c.scale := h1
    _ = b.num * 10 ^ c.scale * 10 ^ a.scale := by ring
    _ ≤ c.num * 10 ^ b.scale * 10 ^ a.scale := h2
    _ = c.num * 10 ^ a.scale * 10 ^ b.scale := by ring

theorem pickBest_ne_none (files : List String) :
    ∀ acc : Option (String × Loss),
    ((∃ f ∈ files, ∃ l, weightLoss f = some l) ∨ acc ≠ none) →
    pickBest files acc ≠ none := by
  induction files with
  | nil =>
    intro acc h
    rcases h with ⟨f, hf, _⟩ | h
    · simp at hf
    · simpa [pickBest] using h
  | cons x rest ih =>
    intro acc h
    unfold pickBest
    cases hw : weightLoss x with
    | none =>
      apply ih
      rcases h with ⟨f, hf, l, hl⟩ | h
      · rcases List.mem_cons.mp hf with rfl | hmem
        · rw [hw] at hl
          exact absurd hl (by simp)
        · exact Or.inl ⟨f, hmem, l, hl⟩
      · exact Or.inr h
    | some l =>
      cases acc with
      | none => exact ih _ (Or.inr (by simp))
      | some p =>
        cases p with
        | mk bf bl =>
          simp only []
          by_cases hlt : lossLt l bl = true
          · rw [if_pos hlt]
            exact ih _ (Or.inr (by simp))
          · rw [if_neg hlt]
            exact ih _ (Or.inr (by simp))

theorem pickBest_spec (files : List String) :
    ∀ acc : Option (String × Loss),
    (∀ ga la, acc = some (ga, la) → weightLoss ga = some la) →
    ∀ g lg, pickBest files acc = some (g, lg) →
      weightLoss g = some lg ∧
      (g ∈ files ∨ acc = some (g, lg)) ∧
      (∀ x ∈ files, ∀ lx, weightLoss x = some lx → lossLe lg lx) ∧
      (∀ ga la, acc = some (ga, la) → lossLe lg la) := by
  induction files with
  | nil =>
    intro acc hinv g lg hres
    simp only [pickBest] at hres
    refine ⟨hinv g lg hres, Or.inr hres, ?_, ?_⟩
    · intro x hx
      simp at hx
    · intro ga la hacc
      rw [hres] at hacc
      obtain ⟨h1, h2⟩ : g = ga ∧ lg = la := by simpa using hacc
      subst h1
      subst h2
      exact lossLe_refl lg
  | cons x rest ih =>
    intro acc hinv g lg hres
    unfold pickBest at hres
    cases hw : weightLoss x with
    | none =>
      rw [hw] at hres
      simp only [] at hres
      obtain ⟨h1, h2, h3, h4⟩ := ih acc hinv g lg hres
      refine ⟨h1, ?_, ?_, h4⟩
      · rcases h2 with h2 | h2
        · exact Or.inl (List.mem_cons_of_mem _ h2)
        · exact Or.inr h2
      · intro y hy ly hly
        rcases List.mem_cons.mp hy with rfl | hmem
        · rw [hw] at hly
          exact absurd hly (by simp)
        · exact h3 y hmem ly hly
    | some l =>
      rw [hw] at hres
      cases acc with
      | none =>
        simp only [] at hres
        have hinv2 : ∀ ga la, (some (x, l) : Option (String × Loss)) = some (ga, la) →
            weightLoss ga = some la := by
          intro ga la hacc
          obtain ⟨h1, h2⟩ : x = ga ∧ l = la := by simpa using hacc
          subst h1
          subst h2
          exact hw
        obtain ⟨h1, h2, h3, h4⟩ := ih _ hinv2 g lg hres
        refine ⟨h1, ?_, ?_, ?_⟩
        · rcases h2 with h2 | h2
          · exact Or.inl (List.mem_cons_of_mem _ h2)
          · obtain ⟨hg, _⟩ : x = g ∧ l = lg := by simpa using h2
            subst hg
            exact Or.inl (List.mem_cons_self _ _)
        · intro y hy ly hly
          rcases List.mem_cons.mp hy with rfl | hmem
          · rw [hw] at hly
            obtain rfl : l = ly := by simpa using hly
            exact h4 y l rfl
          · exact h3 y hmem ly hly
        · intro ga la hacc
          exact absurd hacc (by simp)
      | some p =>
        cases p with
        | mk bf bl =>
          simp only [] at hres
          by_cases hlt : lossLt l bl = true
          · rw [if_pos hlt] at hres
            have hinv2 : ∀ ga la, (some (x, l) : Option (String × Loss)) = some (ga, la) →
                weightLoss ga = some la := by
              intro ga la hacc
              obtain ⟨h1, h2⟩ : x = ga ∧ l = la := by simpa using hacc
              subst h1
              subst h2
              exact hw
            obtain ⟨h1, h2, h3, h4⟩ := ih _ hinv2 g lg hres
            refine ⟨h1, ?_, ?_, ?_⟩
            · rcases h2 with h2 | h2
              · exact Or.inl (List.mem_cons_of_mem _ h2)
              · obtain ⟨hg, _⟩ : x = g ∧ l = lg := by simpa using h2
                subst hg
                exact Or.inl (List.mem_cons_self _ _)
            · intro y hy ly hly
              rcases List.mem_cons.mp hy with rfl | hmem
              · rw [hw] at hly
                obtain rfl : l = ly := by simpa using hly
                exact h4 y l rfl
              · exact h3 y hmem ly hly
            · intro ga la hacc
              obtain ⟨hg, hl2⟩ : bf = ga ∧ bl = la := by simpa using hacc
              subst hg
              subst hl2
              exact lossLe_trans (h4 x l rfl) (lossLe_of_lt hlt)
          · rw [if_neg hlt] at hres
            have hnlt : lossLt l bl = false := by
              simpa using hlt
            obtain ⟨h1, h2, h3, h4⟩ := ih _ hinv g lg hres
            refine ⟨h1, ?_, ?_, h4⟩
            · rcases h2 with h2 | h2
              · exact Or.inl (List.mem_cons_of_mem _ h2)
              · exact Or.inr h2
            · intro y hy ly hly
              rcases List.mem_cons.mp hy with rfl | hmem
              · rw [hw] at hly
                obtain rfl : l = ly := by simpa using hly
                exact lossLe_trans (h4 bf bl rfl) (lossLe_of_not_lt hnlt)
              · exact h3 y hmem ly hly

theorem findBest_min (dir : String) (files : List String) (f : String) (l : Loss)
    (hf : f ∈ files) (hfp : endsWithS f ".pth" = true) (hl : weightLoss f = some l) :
    ∃ g lg, weightLoss g = some lg ∧ g ∈ files ∧ endsWithS g ".pth" = true ∧
      (∀ x ∈ files, endsWithS x ".pth" = true → ∀ lx, weightLoss x = some lx →
        lossLe lg lx) ∧
      findBestWeightFile dir files = some (pathJoin dir g) := by
  have hmemf : f ∈ files.filter (fun x => endsWithS x ".pth") :=
    List.mem_filter.mpr ⟨hf, hfp⟩
  cases hwf : files.filter (fun x => endsWithS x ".pth") with
  | nil =>
    rw [hwf] at hmemf
    simp at hmemf
  | cons f0 rest =>
    rw [hwf] at hmemf
    have hne := pickBest_ne_none (f0 :: rest) none (Or.inl ⟨f, hmemf, l, hl⟩)
    cases hpb : pickBest (f0 :: rest) none with
    | none => exact absurd hpb hne
    | some gl =>
      cases gl with
      | mk g lg =>
        obtain ⟨h1, h2, h3, _⟩ := pickBest_spec (f0 :: rest) none (by intro ga la h; simp at h)
          g lg hpb
        have hgmem : g ∈ f0 :: rest := by
          rcases h2 with h2 | h2
          · exact h2
          · simp at h2
        rw [← hwf] at hgmem
        refine ⟨g, lg, h1, (List.mem_filter.mp hgmem).1,
          (List.mem_filter.mp hgmem).2, ?_, ?_⟩
        · intro x hx hxp lx hlx
          have : x ∈ f0 :: rest := by
            rw [← hwf]
            exact List.mem_filter.mpr ⟨hx, hxp⟩
          exact h3 x this lx hlx
        · unfold findBestWeightFile
          rw [hwf]
          simp only [hpb]

/-- Row A of the pretrained-handoff scenario: Done with the run-name
directory crisp-oak-7. -/
def rowAOak : ExpRow :=
  ⟨"A1", "a", "python a.py", "Done", "run-a", "crisp-oak-7", "", ""⟩

/-- Row B referencing row A1. -/
def rowBOak : ExpRow :=
  ⟨"B", "b", "python b.py", "", "", "", "", "A1"⟩

/-- File system where crisp-oak-7 is a directory holding the two
checkpoints of the scenario. -/
def fsOak : Fs :=
  ⟨fun d => if d == "crisp-oak-7" then
      some ["model_0.21_3.pth", "model_0.18_5.pth"]
    else none⟩

/-- Admission environment over fsOak. -/
def envOak : AdmissionEnv := ⟨fsOak, "/base", fun _ => true, true⟩

/-- Claim C6: when the referenced directory exists and holds at least
one file matching model_(loss)_(idx).pth with a parseable numeric
loss, the resolver returns the path of a matching .pth file whose loss
is minimal among all matching files, and admission passes exactly that
path to the spawned process as the pretrained_path extra argument. -/
theorem bestWeight_lowest_loss_admitted (env : AdmissionEnv) (t : List ExpRow)
    (r rowA : ExpRow) (files : List String) (f : String) (l : Loss)
    (hcmd : (r.trainingCommand == "") = false)
    (hpid : (r.pretrainedModelId != "") = true)
    (hnan : (trimS r.pretrainedModelId != "nan") = true)
    (hfindA : t.find? (fun x => x.id == trimS r.pretrainedModelId) = some rowA)
    (hwd : (trimS rowA.weightFile == "") = false)
    (hdir : env.fs.dirs rowA.weightFile = some files)
    (hf : f ∈ files) (hfp : endsWithS f ".pth" = true) (hl : weightLoss f = some l) :
    ∃ g lg, weightLoss g = some lg ∧ g ∈ files ∧ endsWithS g ".pth" = true ∧
      (∀ x ∈ files, endsWithS x ".pth" = true → ∀ lx, weightLoss x = some lx →
        lossLe lg lx) ∧
      findPretrainedWeightFile t env.fs env.baseDir (trimS r.pretrainedModelId) =
        some (pathJoin rowA.weightFile g) ∧
      ∃ c, (admitRow env t r).call = some c ∧
        c.args = [("pretrained_path", pathJoin rowA.weightFile g)] := by
  obtain ⟨g, lg, hwl, hgmem, hgp, hmin, hbest⟩ := findBest_min rowA.weightFile files f l hf hfp hl
  have hres : findPretrainedWeightFile t env.fs env.baseDir (trimS r.pretrainedModelId) =
      some (pathJoin rowA.weightFile g) := by
    unfold findPretrainedWeightFile
    simp only [hfindA]
    rw [if_neg (by simp [hwd])]
    simp only [hdir, hbest]
  refine ⟨g, lg, hwl, hgmem, hgp, hmin, hres, ?_⟩
  unfold admitRow
  rw [if_neg (by simp [hcmd])]
  simp only [hpid, if_true, hnan, hres]
  cases hs : env.spawnOk r.id with
  | true =>
    rw [if_pos rfl]
    exact ⟨_, rfl, rfl⟩
  | false =>
    rw [if_neg (by simp)]
    exact ⟨_, rfl, rfl⟩

theorem bestWeight_lowest_loss_admitted_witness :
    ∃ g lg, weightLoss g = some lg ∧
      g ∈ ["model_0.21_3.pth", "model_0.18_5.pth"] ∧ endsWithS g ".pth" = true ∧
      (∀ x ∈ ["model_0.21_3.pth", "model_0.18_5.pth"], endsWithS x ".pth" = true →
        ∀ lx, weightLoss x = some lx → lossLe lg lx) ∧
      findPretrainedWeightFile [rowAOak, rowBOak] envOak.fs envOak.baseDir
        (trimS rowBOak.pretrainedModelId) = some (pathJoin rowAOak.weightFile g) ∧
      ∃ c, (admitRow envOak [rowAOak, rowBOak] rowBOak).call = some c ∧
        c.args = [("pretrained_path", pathJoin rowAOak.weightFile g)] :=
  bestWeight_lowest_loss_admitted envOak [rowAOak, rowBOak] rowBOak rowAOak
    ["model_0.21_3.pth", "model_0.18_5.pth"] "model_0.18_5.pth" ⟨18, 2⟩
    (by decide) (by decide) (by decide) (by decide) (by decide) (by decide)
    (by decide) (by decide) (by decide)
